import Mathlib

/-!
Shallow embedding of the offline-first bookmark sync engine of
`src/lib/bookmarkClient.ts` (class `BookmarkClient`), together with proofs
about its behaviour.

Modelling conventions:
* ISO-8601 timestamp strings are modelled as `Nat` epoch instants; comparing
  `new Date(s).getTime()` corresponds to comparing the `Nat`s.
* JavaScript strings are modelled as Lean `String`s; `trim` / `toLowerCase`
  are re-implemented on the character list (`trimStr` / `toLowerStr`) so that
  they are kernel-reducible; for the ASCII data handled here they agree with
  the JS behaviour.
* `TS Partial<Bookmark>` is modelled as `BookmarkPatch`, a record of `Option`
  fields; object spread `{...b, ...p}` is `mergePatch`.
* The remote API (`apiRequest` / `fetch`) is modelled by oracles: a
  `CallResult` per remote call (failure, or success with an optional parsed
  body), and an `Option (List Bookmark)` for the post-drain list refresh.
* `navigator.onLine` is the explicit `online : Bool` argument (the browser
  environment, where `navigator` is defined, is assumed).
* Thrown exceptions are the `Option ClientError` component of a result.
-/

namespace BookmarkMgr

/-- JS whitespace test for the characters relevant to `String.prototype.trim`. -/
def isWs (c : Char) : Bool := c = ' ' || c = '\t' || c = '\n' || c = '\r'

/-- Model of `s.trim()`: drop whitespace from both ends. -/
def trimStr (s : String) : String :=
  ⟨((s.data.dropWhile isWs).reverse.dropWhile isWs).reverse⟩

/-- Model of `s.toLowerCase()` (ASCII). -/
def toLowerStr (s : String) : String := ⟨s.data.map Char.toLower⟩

/-- Lexicographic order on character lists, modelling `a.localeCompare(b) < 0`
for ASCII strings (and the tie-break order on ids). -/
def lexLt : List Char → List Char → Bool
  | [], [] => false
  | [], _ :: _ => true
  | _ :: _, [] => false
  | c :: cs, d :: ds => if c = d then lexLt cs ds else decide (c < d)

/-- Order where `a` sorts no later than `b` (model of `localeCompare ≤ 0`). -/
def lexLe (a b : List Char) : Bool := !(lexLt b a)

/-- Insert into an ascending-sorted list of strings (used for tag sorting). -/
def insertTag (x : String) : List String → List String
  | [] => [x]
  | y :: t => if lexLe x.data y.data then x :: y :: t else y :: insertTag x t

/-- Model of `Array.prototype.sort((a, b) => a.localeCompare(b))` on tags. -/
def sortTags (l : List String) : List String := l.foldr insertTag []

/-- Helper for `dedupFirst`: `seen` is the set of strings already kept. -/
def dedupFirstAux : List String → List String → List String
  | _, [] => []
  | seen, s :: t =>
    if seen.any (fun u => decide (u = s)) then dedupFirstAux seen t
    else s :: dedupFirstAux (s :: seen) t

/-- Model of `filter((tag, idx, arr) => arr.indexOf(tag) === idx)`:
keep the first occurrence of every string. -/
def dedupFirst (l : List String) : List String := dedupFirstAux [] l

/-- Model of `normalizeTags` from the source: trim each tag, drop empties,
de-duplicate keeping first occurrences, sort. -/
def normalizeTags (tags : List String) : List String :=
  sortTags (dedupFirst ((tags.map trimStr).filter (fun t => decide (t ≠ ""))))

/-- The `Bookmark` record of `bookmarkClient.ts`. -/
structure Bookmark where
  id : String
  title : String
  url : String
  description : String
  notes : String
  tags : List String
  folder : String
  createdAt : Nat
  updatedAt : Nat
  visitCount : Nat
  lastVisitedAt : Option Nat
deriving DecidableEq, Repr

/-- Model of `Partial<Bookmark>`: every field optionally present. -/
structure BookmarkPatch where
  id : Option String := none
  title : Option String := none
  url : Option String := none
  description : Option String := none
  notes : Option String := none
  tags : Option (List String) := none
  folder : Option String := none
  createdAt : Option Nat := none
  updatedAt : Option Nat := none
  visitCount : Option Nat := none
  lastVisitedAt : Option (Option Nat) := none
deriving DecidableEq, Repr

/-- Object spread `{...b, ...p}`: fields present in the patch override `b`. -/
def mergePatch (b : Bookmark) (p : BookmarkPatch) : Bookmark where
  id := p.id.getD b.id
  title := p.title.getD b.title
  url := p.url.getD b.url
  description := p.description.getD b.description
  notes := p.notes.getD b.notes
  tags := p.tags.getD b.tags
  folder := p.folder.getD b.folder
  createdAt := p.createdAt.getD b.createdAt
  updatedAt := p.updatedAt.getD b.updatedAt
  visitCount := p.visitCount.getD b.visitCount
  lastVisitedAt := p.lastVisitedAt.getD b.lastVisitedAt

/-- Model of `parseBookmark` from the source, with the nondeterministic defaults
(`createId()`, `new Date()`) passed in as `freshId` / `now`. -/
def parseBookmark (raw : BookmarkPatch) (freshId : String) (now : Nat) : Bookmark where
  id := raw.id.getD freshId
  title := (raw.title.map trimStr).getD "Untitled"
  url := (raw.url.map trimStr).getD ""
  description := (raw.description.map trimStr).getD ""
  notes := (raw.notes.map trimStr).getD ""
  tags := normalizeTags (raw.tags.getD [])
  folder := (raw.folder.map trimStr).getD ""
  createdAt := raw.createdAt.getD now
  updatedAt := raw.updatedAt.getD now
  visitCount := raw.visitCount.getD 0
  lastVisitedAt := raw.lastVisitedAt.join

/-- The `BookmarkDraft` record of the source. -/
structure BookmarkDraft where
  title : String
  url : String
  description : Option String := none
  notes : Option String := none
  tags : Option (List String) := none
  folder : Option String := none
deriving DecidableEq, Repr

/-- The tagged `PendingOperation` variant of the source. -/
inductive PendingOperation where
  | create (bookmark : Bookmark)
  | update (id : String) (updates : BookmarkPatch)
  | delete (id : String)
deriving DecidableEq, Repr

/-- Model of `result[idx] = {...result[idx], ...updates}` at the first index whose id
matches (`findIndex` + assignment); identity if no id matches. -/
def updateFirst (l : List Bookmark) (i : String) (p : BookmarkPatch) : List Bookmark :=
  match l with
  | [] => []
  | b :: rest => if b.id = i then mergePatch b p :: rest else b :: updateFirst rest i p

/-- Model of `result.splice(idx, 1)` at the first index whose id matches (`findIndex` +
`splice`); identity if no id matches. -/
def deleteFirst (l : List Bookmark) (i : String) : List Bookmark :=
  match l with
  | [] => []
  | b :: rest => if b.id = i then rest else b :: deleteFirst rest i

/-- One iteration of the replay loop of `applyPendingLocally`. -/
def applyOp (result : List Bookmark) (op : PendingOperation) : List Bookmark :=
  match op with
  | .create b => if result.any (fun x => x.id = b.id) then result else result ++ [b]
  | .update i p => updateFirst result i p
  | .delete i => deleteFirst result i

/-- Model of `applyPendingLocally(base)`: replay the pending log over a base list. -/
def applyPendingLocally (base : List Bookmark) (pending : List PendingOperation) : List Bookmark :=
  pending.foldl applyOp base

/-- Outcome of one remote `apiRequest` call: rejection (`!response.ok`,
network error, abort) or success carrying the parsed body — `none` for an
empty (204) body, `some saved` for a confirmed bookmark record. -/
inductive CallResult where
  | failure
  | success (data : Option Bookmark)
deriving DecidableEq, Repr

/-- Errors thrown to the caller of a mutation:
`notFound` models `throw new Error("Bookmark not found")`, `remote` models
re-throwing a failed API call while `navigator.onLine`. -/
inductive ClientError where
  | notFound
  | remote
deriving DecidableEq, Repr

/-- The mutable fields of `BookmarkClient` relevant to the claims:
the optimistic collection, the pending operation log, and the persisted
last-sync timestamp. -/
structure ClientState where
  bookmarks : List Bookmark
  pending : List PendingOperation
  lastSync : Option Nat
deriving DecidableEq, Repr

/-- Model of `upsertLocal`: replace the first entry with a matching id, else push. -/
def upsertLocal (l : List Bookmark) (b : Bookmark) : List Bookmark :=
  match l with
  | [] => [b]
  | x :: rest => if x.id = b.id then b :: rest else x :: upsertLocal rest b

/-- Model of `removePending(predicate)`: keep the operations NOT matching the predicate. -/
def removePending (l : List PendingOperation) (p : PendingOperation → Bool) : List PendingOperation :=
  l.filter (fun op => !(p op))

/-- Predicate of the `removePending` call in `createBookmark`/`sync`:
`operation.type === "create" and operation.bookmark.id === id`. -/
def isCreateWithId (op : PendingOperation) (i : String) : Bool :=
  match op with
  | .create b => decide (b.id = i)
  | _ => false

/-- Predicate of the `removePending` call in `updateBookmark`:
`operation.type === "update" and operation.id === id`. -/
def isUpdateWithId (op : PendingOperation) (i : String) : Bool :=
  match op with
  | .update j _ => decide (j = i)
  | _ => false

/-- Predicate of the `removePending` call in `deleteBookmark`:
`operation.type === "delete" and operation.id === id`. -/
def isDeleteWithId (op : PendingOperation) (i : String) : Bool :=
  match op with
  | .delete j => decide (j = i)
  | _ => false

/-- All fields of a bookmark as a present patch: the pending `update`
operations store the fully merged record as their `updates` payload. -/
def toPatch (b : Bookmark) : BookmarkPatch where
  id := some b.id
  title := some b.title
  url := some b.url
  description := some b.description
  notes := some b.notes
  tags := some b.tags
  folder := some b.folder
  createdAt := some b.createdAt
  updatedAt := some b.updatedAt
  visitCount := some b.visitCount
  lastVisitedAt := some b.lastVisitedAt

/-- The bookmark built by `createBookmark` before any remote interaction:
`parseBookmark({...draft, id, createdAt: now, updatedAt: now, visitCount: 0, ...})`. -/
def createdBookmark (draft : BookmarkDraft) (freshId : String) (now : Nat) : Bookmark :=
  parseBookmark
    { id := some freshId, title := some draft.title, url := some draft.url,
      description := some (draft.description.getD ""), notes := some (draft.notes.getD ""),
      tags := some (draft.tags.getD []), folder := some (draft.folder.getD ""),
      createdAt := some now, updatedAt := some now, visitCount := some 0,
      lastVisitedAt := none } freshId now

/-- Model of `createBookmark(draft)`. The generated `crypto.randomUUID()` is `freshId`,
the remote POST outcome is `call`. No validation is performed in the source:
the parsed bookmark is pushed and a Create operation queued unconditionally;
on a successful call with a body the confirmed record is upserted and the
Create operation removed; a failed call is re-thrown only when online. -/
def createBookmark (st : ClientState) (online : Bool) (draft : BookmarkDraft)
    (freshId : String) (call : CallResult) (now : Nat) : ClientState × Option ClientError :=
  let bk := createdBookmark draft freshId now
  let bookmarks₁ := st.bookmarks ++ [bk]
  let pending₁ := st.pending ++ [PendingOperation.create bk]
  match call with
  | .failure =>
    ({ st with bookmarks := bookmarks₁, pending := pending₁ },
     if online then some .remote else none)
  | .success none =>
    ({ st with bookmarks := bookmarks₁, pending := pending₁ }, none)
  | .success (some saved) =>
    ({ st with bookmarks := upsertLocal bookmarks₁ saved,
               pending := removePending pending₁ (fun op => isCreateWithId op bk.id) }, none)

/-- Model of `updateBookmark(id, updates)`: throws `notFound` if no entry matches,
otherwise merges (re-normalizing tags and folder, bumping `updatedAt`),
replaces the entry, queues an Update operation carrying the merged record,
then attempts the remote PUT. -/
def updateBookmark (st : ClientState) (online : Bool) (i : String)
    (updates : BookmarkPatch) (call : CallResult) (now : Nat) : ClientState × Option ClientError :=
  match st.bookmarks.find? (fun b => decide (b.id = i)) with
  | none => (st, some .notFound)
  | some b =>
    let merged : Bookmark :=
      { mergePatch b updates with
        tags := normalizeTags (updates.tags.getD b.tags),
        folder := (updates.folder.map trimStr).getD b.folder,
        updatedAt := now }
    let bookmarks₁ := updateFirst st.bookmarks i (toPatch merged)
    let pending₁ := st.pending ++ [PendingOperation.update i (toPatch merged)]
    match call with
    | .failure =>
      ({ st with bookmarks := bookmarks₁, pending := pending₁ },
       if online then some .remote else none)
    | .success none =>
      ({ st with bookmarks := bookmarks₁, pending := pending₁ }, none)
    | .success (some saved) =>
      ({ st with bookmarks := upsertLocal bookmarks₁ saved,
                 pending := removePending pending₁ (fun op => isUpdateWithId op i) }, none)

/-- Model of `deleteBookmark(id)`: filters the collection and queues a Delete
operation unconditionally — there is no not-found check — then attempts the
remote DELETE. -/
def deleteBookmark (st : ClientState) (online : Bool) (i : String)
    (call : CallResult) (now : Nat) : ClientState × Option ClientError :=
  let bookmarks₁ := st.bookmarks.filter (fun b => decide (¬ b.id = i))
  let pending₁ := st.pending ++ [PendingOperation.delete i]
  match call with
  | .failure =>
    ({ st with bookmarks := bookmarks₁, pending := pending₁ },
     if online then some .remote else none)
  | .success _ =>
    ({ st with bookmarks := bookmarks₁,
               pending := removePending pending₁ (fun op => isDeleteWithId op i) }, none)

/-- Model of `trackVisit(id)`: throws `notFound` if absent, otherwise delegates to
`updateBookmark` with an incremented visit count and a fresh visit time. -/
def trackVisit (st : ClientState) (online : Bool) (i : String)
    (call : CallResult) (now : Nat) : ClientState × Option ClientError :=
  match st.bookmarks.find? (fun b => decide (b.id = i)) with
  | none => (st, some .notFound)
  | some b =>
    updateBookmark st online i
      { visitCount := some (b.visitCount + 1), lastVisitedAt := some (some now) } call now

/-- Stable insertion into a list sorted by `updatedAt` descending: a new
element goes after every element with an equal or larger key. -/
def insertDesc (x : Bookmark) : List Bookmark → List Bookmark
  | [] => [x]
  | y :: t => if x.updatedAt ≤ y.updatedAt then y :: insertDesc x t else x :: y :: t

/-- The sort performed by `fetchRemote`:
`list.sort((a, b) => new Date(b.updatedAt).getTime() - new Date(a.updatedAt).getTime())`,
i.e. a stable sort by `updatedAt` descending. JSON parsing is abstracted:
the oracle already supplies the parsed bookmark list. -/
def fetchRemote (parsed : List Bookmark) : List Bookmark :=
  parsed.foldl (fun acc x => insertDesc x acc) []

/-- The drain loop of `sync()`: process the queued operations in order;
`calls i` is the outcome of the `i`-th remote call. Each successful
create/update with a body upserts the confirmed record; each success removes
exactly the processed operation from the log (the source removes it by object
identity); the first failure stops the loop, leaving the failing operation
and its successors queued. Returns the collection, the remaining log, and
whether the whole queue drained. -/
def drainLoop (calls : Nat → CallResult) :
    List PendingOperation → Nat → List Bookmark → List Bookmark × List PendingOperation × Bool
  | [], _, bm => (bm, [], true)
  | op :: rest, i, bm =>
    match calls i with
    | .failure => (bm, op :: rest, false)
    | .success d =>
      let bm₁ :=
        match op with
        | .create _ => match d with | some saved => upsertLocal bm saved | none => bm
        | .update _ _ => match d with | some saved => upsertLocal bm saved | none => bm
        | .delete _ => bm
      drainLoop calls rest (i + 1) bm₁

/-- Model of `sync()`: immediately `true` on an empty log; `false` when offline;
otherwise drain the log, and on full drain refresh from the remote
(`refresh` is the parsed list, or `none` when the refresh call fails),
stamping the last-sync time on a successful refresh. -/
def sync (st : ClientState) (online : Bool) (calls : Nat → CallResult)
    (refresh : Option (List Bookmark)) (now : Nat) : ClientState × Bool :=
  if st.pending.isEmpty then (st, true)
  else if online then
    match drainLoop calls st.pending 0 st.bookmarks with
    | (bm, pend, false) => ({ st with bookmarks := bm, pending := pend }, false)
    | (bm, pend, true) =>
      match refresh with
      | some remote =>
        ({ bookmarks := fetchRemote remote, pending := pend, lastSync := some now }, true)
      | none => ({ st with bookmarks := bm, pending := pend }, true)
  else (st, false)

/-- Append a bookmark to the group of its key in an insertion-ordered
association list (the iteration/insertion behaviour of the JS `Map`). -/
def addToGroups (groups : List (String × List Bookmark)) (key : String) (b : Bookmark) :
    List (String × List Bookmark) :=
  match groups with
  | [] => [(key, [b])]
  | (k, g) :: rest =>
    if k = key then (k, g ++ [b]) :: rest else (k, g) :: addToGroups rest key b

/-- The grouping pass of `detectDuplicates`: skip empty urls, key each
bookmark by `url.toLowerCase()`. -/
def buildGroups (l : List Bookmark) : List (String × List Bookmark) :=
  l.foldl (fun m b => if b.url = "" then m else addToGroups m (toLowerStr b.url) b) []

/-- Model of `detectDuplicates()`: group by lowercased url, keep groups of size ≥ 2. -/
def detectDuplicates (l : List Bookmark) : List (String × List Bookmark) :=
  (buildGroups l).filter (fun kg => decide (2 ≤ kg.2.length))

/-- The loop of `importBookmarks(entries)` with explicit `imported`/`skipped`
accumulators. `fresh k` / `calls k` are the id and remote outcome used when
the `k`-th remaining entry reaches `createBookmark`; the `try`/`catch`
around `createBookmark` counts the entry as imported in both arms. -/
def importLoop (online : Bool) (now : Nat) :
    ClientState → List BookmarkDraft → (Nat → String) → (Nat → CallResult) → Nat → Nat →
    ClientState × Nat × Nat
  | st, [], _, _, imported, skipped => (st, imported, skipped)
  | st, e :: rest, fresh, calls, imported, skipped =>
    let normalizedUrl := trimStr e.url
    if normalizedUrl = "" then
      importLoop online now st rest (fun k => fresh (k + 1)) (fun k => calls (k + 1))
        imported (skipped + 1)
    else if st.bookmarks.any (fun b => decide (b.url = normalizedUrl)) then
      importLoop online now st rest (fun k => fresh (k + 1)) (fun k => calls (k + 1))
        imported (skipped + 1)
    else
      match createBookmark st online e (fresh 0) (calls 0) now with
      | (st', none) =>
        importLoop online now st' rest (fun k => fresh (k + 1)) (fun k => calls (k + 1))
          (imported + 1) skipped
      | (st', some _) =>
        importLoop online now st' rest (fun k => fresh (k + 1)) (fun k => calls (k + 1))
          (imported + 1) skipped

/-- Model of `importBookmarks(entries)`: returns the final state and the
`{imported, skipped}` counts. -/
def importBookmarks (st : ClientState) (online : Bool) (entries : List BookmarkDraft)
    (fresh : Nat → String) (calls : Nat → CallResult) (now : Nat) : ClientState × Nat × Nat :=
  importLoop online now st entries fresh calls 0 0

/-- Import contract as the specification words it: process the drafts in
order; a draft is skipped exactly when its url is empty (after trimming) or
already present in the current collection; every other draft is handed to
`createBookmark` and counted as imported whether or not the remote call
succeeds. -/
def importBatchSpec (online : Bool) (now : Nat) :
    ClientState → List BookmarkDraft → (Nat → String) → (Nat → CallResult) →
    ClientState × Nat × Nat
  | st, [], _, _ => (st, 0, 0)
  | st, e :: rest, fresh, calls =>
    if trimStr e.url = "" ∨ ∃ b ∈ st.bookmarks, b.url = trimStr e.url then
      let r := importBatchSpec online now st rest (fun k => fresh (k + 1)) (fun k => calls (k + 1))
      (r.1, r.2.1, r.2.2 + 1)
    else
      let r := importBatchSpec online now (createBookmark st online e (fresh 0) (calls 0) now).1
        rest (fun k => fresh (k + 1)) (fun k => calls (k + 1))
      (r.1, r.2.1 + 1, r.2.2)

/-- A pending operation that never changes an entry's id: Update operations
either omit the id field from their patch or set it to the operation's own
target id (the shape the client's own `updateBookmark` produces). -/
def patchKeepsId : PendingOperation → Bool
  | .update i p => decide (p.id = none ∨ p.id = some i)
  | _ => true

/-- The group stored under key `k` in an insertion-ordered association list
of duplicate groups (empty when the key is absent). -/
def groupOf : List (String × List Bookmark) → String → List Bookmark
  | [], _ => []
  | (k', g) :: rest, k => if k' = k then g else groupOf rest k

/-- The ordering asserted by the specification for the projected collection:
`updatedAt` descending, ties broken by id. -/
def claimOrder (a b : Bookmark) : Prop :=
  b.updatedAt < a.updatedAt ∨ (a.updatedAt = b.updatedAt ∧ lexLt a.id.data b.id.data = true)

instance (a b : Bookmark) : Decidable (claimOrder a b) :=
  inferInstanceAs (Decidable (_ ∨ _))

/-! ### Concrete fixtures used by witnesses and counterexamples -/

/-- A simple bookmark fixture. -/
def bA : Bookmark :=
  { id := "a", title := "A", url := "https://a.example", description := "", notes := "",
    tags := [], folder := "", createdAt := 0, updatedAt := 0, visitCount := 0,
    lastVisitedAt := none }

/-- A second fixture with a distinct id and url. -/
def bB : Bookmark := { bA with id := "b", url := "https://b.example" }

/-- The empty client state. -/
def stEmpty : ClientState := { bookmarks := [], pending := [], lastSync := none }

/-- A state holding just `bA`. -/
def stOne : ClientState := { bookmarks := [bA], pending := [], lastSync := none }

/-- A draft whose title and url are both empty. -/
def emptyDraft : BookmarkDraft := { title := "", url := "" }

/-- The bookmark `createBookmark` builds from `emptyDraft` with id `"id1"` at
time 0: empty title and empty url. -/
def bkEmptyCreated : Bookmark :=
  { id := "id1", title := "", url := "", description := "", notes := "",
    tags := [], folder := "", createdAt := 0, updatedAt := 0, visitCount := 0,
    lastVisitedAt := none }

/-- Fixture for duplicate detection: the spec example url `https://Example.com/`. -/
def bEx1 : Bookmark := { bA with id := "e1", url := "https://Example.com/" }

/-- Fixture for duplicate detection: the spec example url `example.com`. -/
def bEx2 : Bookmark := { bA with id := "e2", url := "example.com" }

/-- Fixture pair whose urls differ only in letter case. -/
def bDup1 : Bookmark := { bA with id := "d1", url := "https://X.example" }

/-- Fixture pair whose urls differ only in letter case. -/
def bDup2 : Bookmark := { bA with id := "d2", url := "https://x.Example" }

/-- Fixture with the older update time. -/
def bLow : Bookmark := { bA with id := "low", updatedAt := 0 }

/-- Fixture with the newer update time. -/
def bHigh : Bookmark := { bA with id := "high", updatedAt := 5 }

/-- A queue of five pending delete operations. -/
def delOps : List PendingOperation :=
  [PendingOperation.delete "p", PendingOperation.delete "q", PendingOperation.delete "r",
   PendingOperation.delete "s", PendingOperation.delete "t"]

/-- A state whose pending log is `delOps`. -/
def stFive : ClientState := { bookmarks := [], pending := delOps, lastSync := none }

/-- Remote oracle where the third call fails and all others succeed. -/
def callsThirdFails : Nat → CallResult :=
  fun k => if k = 2 then .failure else .success none

/-- Remote oracle where every call fails. -/
def callsAllFail : Nat → CallResult := fun _ => .failure

/-- A bookmark sharing `bA`'s id but with a different title. -/
def bA2 : Bookmark := { bA with title := "A2" }

/-- A patch setting only the title. -/
def pTitle : BookmarkPatch := { title := some "T" }

/-! ## Theorems -/

/-- Claim C1, counterexample: with an empty pending log and the environment
offline, `sync()` returns `true`, not `false` — the empty-log early return
precedes the offline check — so the claim's "for every client state, offline
implies `sync()` returns false" is false at this state. -/
theorem c1_counterexample :
    ¬ ((sync stEmpty false callsAllFail none 0).2 = false) := by decide

/-- Claim C1 (amended): when the environment is offline, `sync()` performs no
remote calls and leaves the collection, the pending log, and the last-sync
timestamp unchanged; it returns `false` when the pending log is nonempty, and
`true` when the pending log is empty. (The result is the same for every
remote oracle, which captures that nothing remote is consulted.) -/
theorem c1_sync_offline (st : ClientState) (calls : Nat → CallResult)
    (refresh : Option (List Bookmark)) (now : Nat) :
    (st.pending ≠ [] → sync st false calls refresh now = (st, false)) ∧
    (st.pending = [] → sync st false calls refresh now = (st, true)) := by
  constructor
  · intro h
    simp [sync, List.isEmpty_iff, h]
  · intro h
    simp [sync, List.isEmpty_iff, h]

/-- Witness for `c1_sync_offline` at a state with five queued operations. -/
theorem c1_sync_offline_witness :
    sync stFive false callsThirdFails none 0 = (stFive, false) :=
  (c1_sync_offline stFive callsThirdFails none 0).1 (by decide)

/-- Claim C10: whenever the pending log is empty, `sync()` returns `true`
immediately with the state (collection, log, last-sync timestamp) unchanged,
for every connectivity flag and every remote oracle — in particular even
when offline. -/
theorem c10_sync_empty_pending (st : ClientState) (online : Bool)
    (calls : Nat → CallResult) (refresh : Option (List Bookmark)) (now : Nat)
    (h : st.pending = []) :
    sync st online calls refresh now = (st, true) := by
  simp [sync, List.isEmpty_iff, h]

/-- Witness for `c10_sync_empty_pending`: the empty state, offline. -/
theorem c10_sync_empty_pending_witness :
    sync stEmpty false callsAllFail none 0 = (stEmpty, true) :=
  c10_sync_empty_pending stEmpty false callsAllFail none 0 (by decide)

/-- Claim C5, counterexample: `deleteBookmark` on an id absent from the
collection does not fail with a not-found error, and it does append a
pending Delete operation — contradicting "each of update, delete, trackVisit
fails with a not-found error … no pending operation is appended". -/
theorem c5_counterexample :
    (deleteBookmark stEmpty false "missing" CallResult.failure 0).2 ≠ some ClientError.notFound ∧
    (deleteBookmark stEmpty false "missing" CallResult.failure 0).1.pending ≠ [] := by decide

/-- Claim C5 (amended): for an id absent from the current collection,
`updateBookmark` and `trackVisit` fail with a not-found error before any
mutation (state unchanged, nothing queued); `deleteBookmark` is not rejected:
it leaves the collection unchanged (the filter removes nothing) but appends a
Delete pending operation (shown here for an offline failing remote call,
where the queued operation remains). -/
theorem c5_unknown_id (st : ClientState) (online : Bool) (i : String)
    (u : BookmarkPatch) (call : CallResult) (now : Nat)
    (habs : ∀ b ∈ st.bookmarks, b.id ≠ i) :
    updateBookmark st online i u call now = (st, some ClientError.notFound) ∧
    trackVisit st online i call now = (st, some ClientError.notFound) ∧
    deleteBookmark st false i CallResult.failure now
      = ({ st with pending := st.pending ++ [PendingOperation.delete i] }, none) := by
  have hfind : st.bookmarks.find? (fun b => decide (b.id = i)) = none := by
    rw [List.find?_eq_none]
    intro x hx
    simpa using habs x hx
  have hfil : st.bookmarks.filter (fun b => decide (¬ b.id = i)) = st.bookmarks := by
    rw [List.filter_eq_self]
    intro x hx
    simpa using habs x hx
  refine ⟨?_, ?_, ?_⟩
  · simp [updateBookmark, hfind]
  · simp [trackVisit, hfind]
  · simp [deleteBookmark]
    exact habs

/-- Witness for `c5_unknown_id` at a one-element state and the unknown id
`"zzz"`. -/
theorem c5_unknown_id_witness :
    updateBookmark stOne true "zzz" {} CallResult.failure 0 = (stOne, some ClientError.notFound) ∧
    trackVisit stOne true "zzz" CallResult.failure 0 = (stOne, some ClientError.notFound) ∧
    deleteBookmark stOne false "zzz" CallResult.failure 0
      = ({ stOne with pending := stOne.pending ++ [PendingOperation.delete "zzz"] }, none) :=
  c5_unknown_id stOne true "zzz" {} CallResult.failure 0 (by decide)

/-- Claim C6, counterexample: `createBookmark` on a draft whose title and url
are empty adds the bookmark to the collection, queues a Create operation, and
raises no error — contradicting "rejected with a validation error before any
state mutation". -/
theorem c6_counterexample :
    (createBookmark stEmpty false emptyDraft "id1" CallResult.failure 0).1.bookmarks ≠ [] ∧
    (createBookmark stEmpty false emptyDraft "id1" CallResult.failure 0).1.pending ≠ [] ∧
    (createBookmark stEmpty false emptyDraft "id1" CallResult.failure 0).2 = none := by decide

/-- Claim C6 (amended): `createBookmark` performs no validation of title or
url: even for a draft whose title or url is empty after trimming, the parsed
bookmark is appended to the collection and a Create operation is queued, with
no error (shown for an offline failing remote call, where the queued
operation remains). -/
theorem c6_create_no_validation (st : ClientState) (draft : BookmarkDraft)
    (freshId : String) (now : Nat)
    (h : trimStr draft.title = "" ∨ trimStr draft.url = "") :
    createBookmark st false draft freshId CallResult.failure now
      = ({ st with
            bookmarks := st.bookmarks ++ [createdBookmark draft freshId now],
            pending := st.pending ++ [PendingOperation.create (createdBookmark draft freshId now)] },
         none) := rfl

/-- Witness for `c6_create_no_validation` at the empty draft. -/
theorem c6_create_no_validation_witness :
    createBookmark stEmpty false emptyDraft "id1" CallResult.failure 0
      = ({ stEmpty with
            bookmarks := stEmpty.bookmarks ++ [createdBookmark emptyDraft "id1" 0],
            pending := stEmpty.pending ++ [PendingOperation.create (createdBookmark emptyDraft "id1" 0)] },
         none) :=
  c6_create_no_validation stEmpty emptyDraft "id1" 0 (Or.inl (by decide))

/-- If the first `k` remote calls succeed and call `k` fails, the drain loop
stops at operation `k`: the first `k` operations are removed, the failing
operation and its successors remain in order, and the loop reports failure. -/
theorem drainLoop_first_failure (calls : Nat → CallResult) :
    ∀ (q : List PendingOperation) (i : Nat) (bm : List Bookmark) (k : Nat),
      k < q.length →
      (∀ j, j < k → calls (i + j) ≠ CallResult.failure) →
      calls (i + k) = CallResult.failure →
      ∃ bm', drainLoop calls q i bm = (bm', q.drop k, false) := by
  intro q
  induction q with
  | nil =>
    intro i bm k hk
    simp at hk
  | cons op rest ih =>
    intro i bm k hk hsucc hfail
    cases k with
    | zero =>
      refine ⟨bm, ?_⟩
      simp only [Nat.add_zero] at hfail
      simp [drainLoop, hfail]
    | succ k' =>
      have h0 : calls i ≠ CallResult.failure := by
        have := hsucc 0 (Nat.succ_pos k')
        simpa using this
      cases hc : calls i with
      | failure => exact absurd hc h0
      | success d =>
        have hk' : k' < rest.length := by
          simpa using Nat.lt_of_succ_lt_succ hk
        have hsucc' : ∀ j, j < k' → calls (i + 1 + j) ≠ CallResult.failure := by
          intro j hj
          have := hsucc (j + 1) (Nat.succ_lt_succ hj)
          have harith : i + (j + 1) = i + 1 + j := by omega
          rwa [harith] at this
        have hfail' : calls (i + 1 + k') = CallResult.failure := by
          have harith : i + (k' + 1) = i + 1 + k' := by omega
          rwa [harith] at hfail
        cases op with
        | create b =>
          cases d with
          | some saved =>
            obtain ⟨bm', hrec⟩ := ih (i + 1) (upsertLocal bm saved) k' hk' hsucc' hfail'
            refine ⟨bm', ?_⟩
            simpa [drainLoop, hc] using hrec
          | none =>
            obtain ⟨bm', hrec⟩ := ih (i + 1) bm k' hk' hsucc' hfail'
            refine ⟨bm', ?_⟩
            simpa [drainLoop, hc] using hrec
        | update j p =>
          cases d with
          | some saved =>
            obtain ⟨bm', hrec⟩ := ih (i + 1) (upsertLocal bm saved) k' hk' hsucc' hfail'
            refine ⟨bm', ?_⟩
            simpa [drainLoop, hc] using hrec
          | none =>
            obtain ⟨bm', hrec⟩ := ih (i + 1) bm k' hk' hsucc' hfail'
            refine ⟨bm', ?_⟩
            simpa [drainLoop, hc] using hrec
        | delete j =>
          obtain ⟨bm', hrec⟩ := ih (i + 1) bm k' hk' hsucc' hfail'
          refine ⟨bm', ?_⟩
          simpa [drainLoop, hc] using hrec

/-- Claim C2: when online, `sync()` drains the pending log in FIFO order; if
the first `k` queued operations' remote calls succeed and the `(k+1)`-th
fails, `sync()` returns `false`, the `k` completed operations are removed
(and not rolled back), and the failing operation and all later ones remain
queued in their original order — the remaining log is exactly
`st.pending.drop k`. -/
theorem c2_sync_fifo_stops_at_failure (st : ClientState) (calls : Nat → CallResult)
    (refresh : Option (List Bookmark)) (now k : Nat)
    (hk : k < st.pending.length)
    (hsucc : ∀ j, j < k → calls j ≠ CallResult.failure)
    (hfail : calls k = CallResult.failure) :
    (sync st true calls refresh now).2 = false ∧
    (sync st true calls refresh now).1.pending = st.pending.drop k := by
  have hne : st.pending.isEmpty = false := by
    cases hp : st.pending with
    | nil => rw [hp] at hk; simp at hk
    | cons a l => simp
  obtain ⟨bm', hd⟩ := drainLoop_first_failure calls st.pending 0 st.bookmarks k hk
    (by simpa using hsucc) (by simpa using hfail)
  constructor
  · simp [sync, hne, hd]
  · simp [sync, hne, hd]

/-- Witness for `c2_sync_fifo_stops_at_failure`: five queued deletes, the
third call fails — operations 1–2 are removed, 3–5 remain, result `false`. -/
theorem c2_sync_fifo_stops_at_failure_witness :
    (sync stFive true callsThirdFails none 0).2 = false ∧
    (sync stFive true callsThirdFails none 0).1.pending = stFive.pending.drop 2 :=
  c2_sync_fifo_stops_at_failure stFive callsThirdFails none 0 2 (by decide)
    (fun j hj => by interval_cases j <;> decide) (by decide)

/-- Lemma: `updateFirst` is the identity when no entry's id matches. -/
theorem updateFirst_of_absent (l : List Bookmark) (i : String) (p : BookmarkPatch)
    (h : ∀ y ∈ l, y.id ≠ i) : updateFirst l i p = l := by
  induction l with
  | nil => rfl
  | cons a t ih =>
    have ha : a.id ≠ i := h a (List.mem_cons_self a t)
    simp [updateFirst, ha, ih (fun y hy => h y (List.mem_cons_of_mem a hy))]

/-- Lemma: `updateFirst` merges into exactly the first entry whose id matches. -/
theorem updateFirst_append (l₁ l₂ : List Bookmark) (x : Bookmark) (i : String)
    (p : BookmarkPatch) (hx : x.id = i) (h : ∀ y ∈ l₁, y.id ≠ i) :
    updateFirst (l₁ ++ x :: l₂) i p = l₁ ++ mergePatch x p :: l₂ := by
  induction l₁ with
  | nil => simp [updateFirst, hx]
  | cons a t ih =>
    have ha : a.id ≠ i := h a (by simp)
    simp [updateFirst, ha]
    exact ih (fun y hy => h y (by simp [hy]))

/-- Lemma: `deleteFirst` is the identity when no entry's id matches. -/
theorem deleteFirst_of_absent (l : List Bookmark) (i : String)
    (h : ∀ y ∈ l, y.id ≠ i) : deleteFirst l i = l := by
  induction l with
  | nil => rfl
  | cons a t ih =>
    have ha : a.id ≠ i := h a (List.mem_cons_self a t)
    simp [deleteFirst, ha, ih (fun y hy => h y (List.mem_cons_of_mem a hy))]

/-- Lemma: `deleteFirst` removes exactly the first entry whose id matches. -/
theorem deleteFirst_append (l₁ l₂ : List Bookmark) (x : Bookmark) (i : String)
    (hx : x.id = i) (h : ∀ y ∈ l₁, y.id ≠ i) :
    deleteFirst (l₁ ++ x :: l₂) i = l₁ ++ l₂ := by
  induction l₁ with
  | nil => simp [deleteFirst, hx]
  | cons a t ih =>
    have ha : a.id ≠ i := h a (by simp)
    simp [deleteFirst, ha]
    exact ih (fun y hy => h y (by simp [hy]))

/-- Claim C3: the replay rules of `applyPendingLocally`. A Create inserts its
snapshot only when no entry carries its id (a duplicate Create is a no-op,
not an overwrite); an Update merges its fields into the (first) entry with
the matching id and is a no-op when the id is absent; a Delete removes the
(first) entry with the matching id and is a no-op when the id is absent.
The replay is a total function, so it never raises. -/
theorem c3_replay_rules (l l₁ l₂ : List Bookmark) (b x : Bookmark) (i : String)
    (p : BookmarkPatch) :
    ((∃ y ∈ l, y.id = b.id) → applyOp l (PendingOperation.create b) = l) ∧
    ((∀ y ∈ l, y.id ≠ b.id) → applyOp l (PendingOperation.create b) = l ++ [b]) ∧
    ((∀ y ∈ l, y.id ≠ i) → applyOp l (PendingOperation.update i p) = l) ∧
    (l = l₁ ++ x :: l₂ → x.id = i → (∀ y ∈ l₁, y.id ≠ i) →
      applyOp l (PendingOperation.update i p) = l₁ ++ mergePatch x p :: l₂) ∧
    ((∀ y ∈ l, y.id ≠ i) → applyOp l (PendingOperation.delete i) = l) ∧
    (l = l₁ ++ x :: l₂ → x.id = i → (∀ y ∈ l₁, y.id ≠ i) →
      applyOp l (PendingOperation.delete i) = l₁ ++ l₂) := by
  refine ⟨?_, ?_, ?_, ?_, ?_, ?_⟩
  · intro hex
    have hany : l.any (fun y => decide (y.id = b.id)) = true := by
      rw [List.any_eq_true]
      obtain ⟨y, hy, hid⟩ := hex
      exact ⟨y, hy, by simpa using hid⟩
    simp [applyOp, hany]
  · intro hab
    have hany : l.any (fun y => decide (y.id = b.id)) = false := by
      rw [List.any_eq_false]
      intro y hy
      simpa using hab y hy
    simp [applyOp, hany]
  · intro hab
    simpa [applyOp] using updateFirst_of_absent l i p hab
  · intro hl hx h₁
    subst hl
    simpa [applyOp] using updateFirst_append l₁ l₂ x i p hx h₁
  · intro hab
    simpa [applyOp] using deleteFirst_of_absent l i hab
  · intro hl hx h₁
    subst hl
    simpa [applyOp] using deleteFirst_append l₁ l₂ x i hx h₁

/-- Witness for `c3_replay_rules`: each replay rule exercised at concrete
inputs — a duplicate Create is dropped, a fresh Create appended, Update and
Delete act on the matching entry and skip absent ids. -/
theorem c3_replay_rules_witness :
    applyOp [bA] (PendingOperation.create bA2) = [bA] ∧
    applyOp [bA] (PendingOperation.create bB) = [bA] ++ [bB] ∧
    applyOp [bA] (PendingOperation.update "zzz" pTitle) = [bA] ∧
    applyOp [bA, bB] (PendingOperation.update "b" pTitle) = [bA] ++ mergePatch bB pTitle :: [] ∧
    applyOp [bA] (PendingOperation.delete "zzz") = [bA] ∧
    applyOp [bA, bB] (PendingOperation.delete "b") = [bA] ++ [] :=
  ⟨(c3_replay_rules [bA] [] [] bA2 bA "x" pTitle).1 ⟨bA, by decide, by decide⟩,
   (c3_replay_rules [bA] [] [] bB bA "x" pTitle).2.1 (by decide),
   (c3_replay_rules [bA] [] [] bB bA "zzz" pTitle).2.2.1 (by decide),
   (c3_replay_rules [bA, bB] [bA] [] bB bB "b" pTitle).2.2.2.1 (by decide) (by decide) (by decide),
   (c3_replay_rules [bA] [] [] bB bA "zzz" pTitle).2.2.2.2.1 (by decide),
   (c3_replay_rules [bA, bB] [bA] [] bB bB "b" pTitle).2.2.2.2.2 (by decide) (by decide) (by decide)⟩

/-- When an update patch does not change the id, `updateFirst` preserves the
sequence of ids. -/
theorem updateFirst_map_id (l : List Bookmark) (i : String) (p : BookmarkPatch)
    (hp : p.id = none ∨ p.id = some i) :
    (updateFirst l i p).map (fun b => b.id) = l.map (fun b => b.id) := by
  induction l with
  | nil => rfl
  | cons a t ih =>
    by_cases ha : a.id = i
    · cases hp with
      | inl h => simp [updateFirst, ha, mergePatch, h]
      | inr h => simp [updateFirst, ha, mergePatch, h]
    · simp [updateFirst, ha, ih]

/-- Lemma: `deleteFirst` yields a sublist. -/
theorem deleteFirst_sublist (l : List Bookmark) (i : String) :
    List.Sublist (deleteFirst l i) l := by
  induction l with
  | nil => simp [deleteFirst]
  | cons a t ih =>
    by_cases ha : a.id = i
    · simp only [deleteFirst, ha, if_pos]
      exact List.sublist_cons_self a t
    · simp only [deleteFirst, ha, if_neg, ite_false]
      exact List.Sublist.cons₂ a ih

/-- One replay step preserves distinctness of ids, provided the operation
never changes an entry's id. -/
theorem applyOp_nodup (l : List Bookmark) (op : PendingOperation)
    (h : (l.map (fun b => b.id)).Nodup) (hop : patchKeepsId op = true) :
    ((applyOp l op).map (fun b => b.id)).Nodup := by
  cases op with
  | create b =>
    cases hany : l.any (fun x => decide (x.id = b.id)) with
    | true => simpa [applyOp, hany] using h
    | false =>
      have hall : ∀ x ∈ l, ¬ x.id = b.id := by
        rw [List.any_eq_false] at hany
        intro x hx
        simpa using hany x hx
      simp only [applyOp, hany, ite_false, List.map_append, List.map_cons, List.map_nil]
      simpa [List.nodup_append] using ⟨h, hall⟩
  | update i p =>
    have hp : p.id = none ∨ p.id = some i := by simpa [patchKeepsId] using hop
    simpa [applyOp, updateFirst_map_id l i p hp] using h
  | delete i =>
    exact ((deleteFirst_sublist l i).map (fun b => b.id)).nodup h

/-- Claim C4, counterexample: the claim quantifies over every operation log,
but an Update whose field set contains `id` (a legal `Partial<Bookmark>`)
renames an entry onto an existing id: replaying
`Update("a", {id: "b"})` over a mirror with distinct ids `a`, `b` yields two
entries with id `b`. -/
theorem c4_counterexample :
    ([bA, bB].map (fun b => b.id)).Nodup ∧
    ¬ (((applyPendingLocally [bA, bB]
          [PendingOperation.update "a" { id := some "b" }]).map (fun b => b.id)).Nodup) := by
  constructor
  · decide
  · decide

/-- Claim C4 (amended): for every mirror whose entries have pairwise-distinct
ids and every pending log whose Update operations never change an entry's id
(their patch omits the id field or repeats the target id — the only shapes
the client itself produces), the projection obtained by replaying the log
contains no two entries with the same id. -/
theorem c4_projection_nodup (base : List Bookmark) (log : List PendingOperation)
    (hbase : (base.map (fun b => b.id)).Nodup)
    (hops : ∀ op ∈ log, patchKeepsId op = true) :
    ((applyPendingLocally base log).map (fun b => b.id)).Nodup := by
  induction log generalizing base with
  | nil => simpa [applyPendingLocally] using hbase
  | cons op rest ih =>
    have hstep := applyOp_nodup base op hbase (hops op (List.mem_cons_self op rest))
    have := ih (applyOp base op) hstep (fun o ho => hops o (List.mem_cons_of_mem op ho))
    simpa [applyPendingLocally] using this

/-- Witness for `c4_projection_nodup`: a two-element mirror with a Create, a
title Update, and a Delete replayed over it. -/
theorem c4_projection_nodup_witness :
    (((applyPendingLocally [bA] [PendingOperation.create bB,
        PendingOperation.update "a" pTitle,
        PendingOperation.delete "b"]).map (fun b => b.id)).Nodup) :=
  c4_projection_nodup [bA]
    [PendingOperation.create bB, PendingOperation.update "a" pTitle,
     PendingOperation.delete "b"]
    (by decide) (by decide)

/-- Every member of `insertDesc x l` is `x` or a member of `l`. -/
theorem mem_insertDesc (x y : Bookmark) (l : List Bookmark) (h : y ∈ insertDesc x l) :
    y = x ∨ y ∈ l := by
  induction l with
  | nil => simpa [insertDesc] using h
  | cons a t ih =>
    by_cases hle : x.updatedAt ≤ a.updatedAt
    · simp only [insertDesc, hle, if_pos] at h
      rcases List.mem_cons.mp h with h1 | h2
      · exact Or.inr (by simp [h1])
      · rcases ih h2 with h3 | h4
        · exact Or.inl h3
        · exact Or.inr (List.mem_cons_of_mem a h4)
    · simp only [insertDesc, hle, if_neg, ite_false] at h
      rcases List.mem_cons.mp h with h1 | h2
      · exact Or.inl h1
      · exact Or.inr h2

/-- Lemma: `insertDesc` preserves sortedness by `updatedAt` descending. -/
theorem sorted_insertDesc (x : Bookmark) (l : List Bookmark)
    (h : List.Sorted (fun a b => b.updatedAt ≤ a.updatedAt) l) :
    List.Sorted (fun a b => b.updatedAt ≤ a.updatedAt) (insertDesc x l) := by
  induction l with
  | nil => simp [insertDesc]
  | cons a t ih =>
    rw [List.sorted_cons] at h
    obtain ⟨h1, h2⟩ := h
    by_cases hle : x.updatedAt ≤ a.updatedAt
    · simp only [insertDesc, hle, if_pos]
      rw [List.sorted_cons]
      refine ⟨?_, ih h2⟩
      intro z hz
      rcases mem_insertDesc x z t hz with h3 | h4
      · rw [h3]; exact hle
      · exact h1 z h4
    · have hlt : a.updatedAt < x.updatedAt := Nat.lt_of_not_le hle
      simp only [insertDesc, hle, if_neg, ite_false]
      rw [List.sorted_cons]
      constructor
      · intro z hz
        rcases List.mem_cons.mp hz with h3 | h4
        · rw [h3]; omega
        · have := h1 z h4; omega
      · rw [List.sorted_cons]
        exact ⟨h1, h2⟩

/-- The insertion fold underlying `fetchRemote` keeps the accumulator sorted. -/
theorem sorted_foldl_insertDesc :
    ∀ (l acc : List Bookmark),
      List.Sorted (fun a b => b.updatedAt ≤ a.updatedAt) acc →
      List.Sorted (fun a b => b.updatedAt ≤ a.updatedAt)
        (l.foldl (fun a x => insertDesc x a) acc) := by
  intro l
  induction l with
  | nil => intro acc h; simpa using h
  | cons b t ih =>
    intro acc h
    simp only [List.foldl_cons]
    exact ih (insertDesc b acc) (sorted_insertDesc b acc h)

/-- Claim C8, counterexample: the projection of the pending log over the
mirror is not ordered by `updatedAt` descending with ties broken by id —
replaying two Creates over the empty mirror appends them in queue order,
leaving an older entry before a newer one. -/
theorem c8_counterexample :
    applyPendingLocally [] [PendingOperation.create bLow, PendingOperation.create bHigh]
      = [bLow, bHigh] ∧
    ¬ List.Pairwise claimOrder
      (applyPendingLocally [] [PendingOperation.create bLow, PendingOperation.create bHigh]) := by
  constructor
  · decide
  · decide

/-- Claim C8 (amended): the list produced by `fetchRemote` — the base the
mirror is overwritten with on load and post-drain refresh — is sorted by
`updatedAt` descending; ties keep their encounter order (there is no id
tie-break), and replaying the pending log does not re-sort, so the projected
collection is not ordered in general. -/
theorem c8_fetchRemote_sorted (parsed : List Bookmark) :
    List.Sorted (fun a b => b.updatedAt ≤ a.updatedAt) (fetchRemote parsed) :=
  sorted_foldl_insertDesc parsed [] (by simp)

/-- The import loop with accumulators computes the specification fold, with
the accumulators added to the final counts. -/
theorem importLoop_eq_spec (online : Bool) (now : Nat) :
    ∀ (entries : List BookmarkDraft) (st : ClientState) (fresh : Nat → String)
      (calls : Nat → CallResult) (imported skipped : Nat),
      importLoop online now st entries fresh calls imported skipped =
        ((importBatchSpec online now st entries fresh calls).1,
         (importBatchSpec online now st entries fresh calls).2.1 + imported,
         (importBatchSpec online now st entries fresh calls).2.2 + skipped) := by
  intro entries
  induction entries with
  | nil =>
    intro st fresh calls imported skipped
    simp [importLoop, importBatchSpec]
  | cons e rest ih =>
    intro st fresh calls imported skipped
    by_cases h1 : trimStr e.url = ""
    · have hc : trimStr e.url = "" ∨ ∃ b ∈ st.bookmarks, b.url = trimStr e.url := Or.inl h1
      rw [importLoop, importBatchSpec, if_pos h1, if_pos hc, ih]
      dsimp only
      congr 1
      congr 1
      omega
    · by_cases h2 : st.bookmarks.any (fun b => decide (b.url = trimStr e.url)) = true
      · have hex : ∃ b ∈ st.bookmarks, b.url = trimStr e.url := by
          rw [List.any_eq_true] at h2
          obtain ⟨b, hb, hurl⟩ := h2
          exact ⟨b, hb, by simpa using hurl⟩
        have hc : trimStr e.url = "" ∨ ∃ b ∈ st.bookmarks, b.url = trimStr e.url := Or.inr hex
        rw [importLoop, importBatchSpec, if_neg h1, if_pos h2, if_pos hc, ih]
        dsimp only
        congr 1
        congr 1
        omega
      · have hc : ¬ (trimStr e.url = "" ∨ ∃ b ∈ st.bookmarks, b.url = trimStr e.url) := by
          rintro (h | ⟨b, hb, hurl⟩)
          · exact h1 h
          · exact h2 (List.any_eq_true.mpr ⟨b, hb, by simpa using hurl⟩)
        rw [importLoop, importBatchSpec, if_neg h1, if_neg h2, if_neg hc]
        rcases hcb : createBookmark st online e (fresh 0) (calls 0) now with ⟨st', err⟩
        cases err with
        | none =>
          dsimp only
          rw [ih]
          congr 1
          congr 1
          omega
        | some er =>
          dsimp only
          rw [ih]
          congr 1
          congr 1
          omega

/-- Claim C9: `importBookmarks` computes exactly the specified import fold —
it processes the drafts in order, counts a draft as skipped precisely when
its (trimmed) url is empty or already present in the current collection,
hands every other draft to `createBookmark` and counts it as imported
whether or not the remote call succeeds (a failed create stays queued inside
`createBookmark`'s state), and returns the `{imported, skipped}` pair of
those counts. -/
theorem c9_import_counts (st : ClientState) (online : Bool)
    (entries : List BookmarkDraft) (fresh : Nat → String) (calls : Nat → CallResult)
    (now : Nat) :
    importBookmarks st online entries fresh calls now
      = importBatchSpec online now st entries fresh calls := by
  rw [importBookmarks, importLoop_eq_spec]
  simp

/-- Adding a bookmark under key `k'` appends it to the group of `k'` and
leaves every other group unchanged. -/
theorem groupOf_addToGroups (m : List (String × List Bookmark)) (k' k : String)
    (b : Bookmark) :
    groupOf (addToGroups m k' b) k
      = if k = k' then groupOf m k ++ [b] else groupOf m k := by
  induction m with
  | nil =>
    by_cases hk : k = k'
    · subst hk
      simp [groupOf, addToGroups]
    · have hk' : ¬ (k' = k) := fun h => hk h.symm
      simp [groupOf, addToGroups, hk, hk']
  | cons hd tl ih =>
    obtain ⟨k0, g0⟩ := hd
    by_cases h1 : k0 = k'
    · subst h1
      by_cases hk : k0 = k
    -- head entry holds the insertion key
      · simp [addToGroups, groupOf, hk]
      · have hkk : ¬ (k = k0) := fun h => hk h.symm
        simp [addToGroups, groupOf, hk, hkk]
    · by_cases hk : k0 = k
      · have hkk' : ¬ (k = k') := by
          subst hk
          exact fun h => h1 h
        simp [addToGroups, groupOf, h1, hk, hkk']
      · simp [addToGroups, groupOf, h1, hk, ih]

/-- The group of `k` after the grouping fold: the group already accumulated,
followed by the scanned bookmarks with nonempty url whose lowercased url is
`k`, in scan order. -/
theorem groupOf_foldGroups (l : List Bookmark) :
    ∀ (m : List (String × List Bookmark)) (k : String),
      groupOf (l.foldl (fun m b => if b.url = "" then m else addToGroups m (toLowerStr b.url) b) m) k
        = groupOf m k ++ l.filter (fun b => decide (b.url ≠ "" ∧ toLowerStr b.url = k)) := by
  induction l with
  | nil =>
    intro m k
    simp
  | cons b t ih =>
    intro m k
    by_cases hurl : b.url = ""
    · simp only [List.foldl_cons, hurl, if_pos, ite_true]
      rw [ih]
      simp [List.filter_cons, hurl]
    · simp only [List.foldl_cons, hurl, ite_false]
      rw [ih, groupOf_addToGroups]
      by_cases hk : k = toLowerStr b.url
      · subst hk
        simp [List.filter_cons, hurl, List.append_assoc]
      · have hk' : ¬ (toLowerStr b.url = k) := fun h => hk h.symm
        simp [List.filter_cons, hk, hk']

/-- Lemma: `groupOf (buildGroups l) k` collects exactly the bookmarks of `l` with
nonempty url whose lowercased url is `k`, in order. -/
theorem groupOf_buildGroups (l : List Bookmark) (k : String) :
    groupOf (buildGroups l) k
      = l.filter (fun b => decide (b.url ≠ "" ∧ toLowerStr b.url = k)) := by
  rw [buildGroups, groupOf_foldGroups]
  simp [groupOf]

/-- The keys after `addToGroups`: unchanged when the key was present,
appended otherwise. -/
theorem keys_addToGroups (m : List (String × List Bookmark)) (k : String) (b : Bookmark) :
    (addToGroups m k b).map Prod.fst
      = if k ∈ m.map Prod.fst then m.map Prod.fst else m.map Prod.fst ++ [k] := by
  induction m with
  | nil => simp [addToGroups]
  | cons hd tl ih =>
    obtain ⟨k0, g0⟩ := hd
    by_cases h1 : k0 = k
    · simp [addToGroups, h1]
    · have h1' : ¬ (k = k0) := fun h => h1 h.symm
      by_cases h2 : k ∈ tl.map Prod.fst
      · simp [addToGroups, h1, h1', h2, ih]
      · simp [addToGroups, h1, h1', h2, ih]

/-- Lemma: `addToGroups` preserves distinctness of the keys. -/
theorem nodup_keys_addToGroups (m : List (String × List Bookmark)) (k : String)
    (b : Bookmark) (h : (m.map Prod.fst).Nodup) : ((addToGroups m k b).map Prod.fst).Nodup := by
  rw [keys_addToGroups]
  by_cases hk : k ∈ m.map Prod.fst
  · simpa [hk] using h
  · simp only [hk, ite_false]
    simpa [List.nodup_append, hk] using h

/-- The grouping pass produces pairwise-distinct keys. -/
theorem nodup_keys_buildGroups (l : List Bookmark) :
    ((buildGroups l).map Prod.fst).Nodup := by
  rw [buildGroups]
  have main : ∀ (l' : List Bookmark) (m : List (String × List Bookmark)),
      (m.map Prod.fst).Nodup →
      ((l'.foldl (fun m b => if b.url = "" then m else addToGroups m (toLowerStr b.url) b) m).map
        Prod.fst).Nodup := by
    intro l'
    induction l' with
    | nil => intro m h; simpa using h
    | cons b t ih =>
      intro m h
      simp only [List.foldl_cons]
      by_cases hurl : b.url = ""
      · simp only [hurl, ite_true]
        exact ih m h
      · simp only [hurl, ite_false]
        exact ih _ (nodup_keys_addToGroups m (toLowerStr b.url) b h)
  exact main l [] (by simp)

/-- With distinct keys, a member of the association list is recovered by
`groupOf` at its key. -/
theorem groupOf_eq_of_mem (m : List (String × List Bookmark)) (k : String)
    (g : List Bookmark) (hnd : (m.map Prod.fst).Nodup) (hm : (k, g) ∈ m) :
    groupOf m k = g := by
  induction m with
  | nil => cases hm
  | cons hd tl ih =>
    obtain ⟨k0, g0⟩ := hd
    rcases List.mem_cons.mp hm with heq | htl
    · obtain ⟨hk, hg⟩ := Prod.mk.injEq .. ▸ heq.symm
      simp [groupOf, hk, hg]
    · have hknd := (List.nodup_cons.mp hnd).1
      have hktl : k ∈ tl.map Prod.fst := by
        simp only [List.mem_map]
        exact ⟨(k, g), htl, rfl⟩
      have hne : ¬ (k0 = k) := by
        intro h
        rw [h] at hknd
        exact hknd hktl
      simp only [groupOf, hne, ite_false]
      exact ih (List.nodup_cons.mp hnd).2 htl

/-- A key with a nonempty group occurs in the association list with exactly
that group. -/
theorem mem_of_groupOf (m : List (String × List Bookmark)) (k : String)
    (h : groupOf m k ≠ []) : (k, groupOf m k) ∈ m := by
  induction m with
  | nil => exact absurd rfl h
  | cons hd tl ih =>
    obtain ⟨k0, g0⟩ := hd
    by_cases hk : k0 = k
    · subst hk
      simp [groupOf]
    · simp only [groupOf, hk, ite_false] at h ⊢
      exact List.mem_cons_of_mem _ (ih h)

/-- Claim C7, counterexample: the spec's example pair — urls
`https://Example.com/` and `example.com` — is NOT reported as a duplicate
group: `detectDuplicates` keys by the bare lowercased url (no scheme
defaulting, trailing-slash stripping, or fragment removal), so the two urls
get different keys and no group reaches two members. -/
theorem c7_counterexample : detectDuplicates [bEx1, bEx2] = [] := by decide

/-- Claim C7 (amended): duplicate detection groups the bookmarks with
nonempty url by their lowercased url string and reports exactly the groups
with at least two members: `(k, g)` is reported iff `g` is the list of
bookmarks whose lowercased url is `k` (in collection order) and `g` has at
least two members. The fancier normalization (`normalizeUrlValue`: scheme
defaulting, trailing-slash stripping, fragment removal) exists only in the
server-side model and is not consulted, so `https://Example.com/` and
`example.com` are not duplicates of each other. -/
theorem c7_duplicate_groups (l : List Bookmark) (k : String) (g : List Bookmark) :
    (k, g) ∈ detectDuplicates l ↔
      (g = l.filter (fun b => decide (b.url ≠ "" ∧ toLowerStr b.url = k)) ∧ 2 ≤ g.length) := by
  constructor
  · intro hmem
    obtain ⟨hm, hlen⟩ := List.mem_filter.mp hmem
    have hgo := groupOf_eq_of_mem (buildGroups l) k g (nodup_keys_buildGroups l) hm
    rw [groupOf_buildGroups] at hgo
    exact ⟨hgo.symm, by simpa using hlen⟩
  · rintro ⟨hg, hlen⟩
    have hne : g ≠ [] := by
      intro h
      rw [h] at hlen
      simp at hlen
    have hgo : groupOf (buildGroups l) k = g := by
      rw [groupOf_buildGroups]
      exact hg.symm
    have hmem : (k, g) ∈ buildGroups l := by
      have := mem_of_groupOf (buildGroups l) k (by rw [hgo]; exact hne)
      rwa [hgo] at this
    exact List.mem_filter.mpr ⟨hmem, by simpa using hlen⟩

end BookmarkMgr
